import Mathlib

/-!
Verification of the CHIP-8 interpreter core in `src/chips.c`.

The machine state and the interpreter operations (`fetch_instruction`,
`decode_instruction`, the sprite XOR-blit of the `DRW` opcode, the
per-step driver of `SDL_AppIterate`) are embedded as executable Lean
functions.  Machine integers become `Nat` with explicit `% 2^w` where the
C code can overflow; fixed-size C arrays (`RAM`, `display_cells`, `V`)
become total functions `Nat → Nat` over their index domain.  The two
operations whose C counterparts can hit undefined behaviour return
`Option`:

* `fetch_instruction` reads `RAM[PC]` and `RAM[PC + 1]`; an access at or
  past index 4096 is out of bounds, modelled as `none`.
* the `DRW` blit reads the sprite byte `RAM[I + y]`, computes
  `bit_pos = 63 - (x_coord + x)` as a C `int` and shifts a `uint64_t` by
  it, and indexes `display_cells[y_coord + y]`; a `RAM` index ≥ 4096, a
  negative shift count or a row index ≥ 32 is undefined behaviour,
  modelled as `none`.

The `message` buffer filled by `snprintf` and everything behind the SDL
rendering/event interface is outside the interpreter core and is not
modelled; `last_step` is threaded through the pacing loop as an explicit
argument instead of as a mutable field.
-/

/-- The `CHIP8Context` struct of `chips.c`: memory, program counter,
index register, the two timers, the bit-packed 64×32 display and the 16
general registers.  `RAM` holds one byte per address `0 ≤ a < 4096`,
`display_cells` one `uint64_t` row per index `0 ≤ r < 32`, `V` one byte
per register index `0 ≤ i < 16`. -/
structure CHIP8Context where
  RAM : Nat → Nat
  PC : Nat
  I : Nat
  delay_timer : Nat
  sound_timer : Nat
  display_cells : Nat → Nat
  V : Nat → Nat

/-- The interpreter-relevant fields of the `AppState` struct of `chips.c`
(the SDL window and renderer handles are host resources and carry no
interpreter state). -/
structure AppState where
  chip8_context : CHIP8Context
  need_redraw : Bool

/-- `get_display_cell` of `chips.c`:
`(display_cells[row] >> (CHIP8_DISPLAY_WIDTH - col - 1)) & 0x1`. -/
def get_display_cell (s : AppState) (row col : Nat) : Nat :=
  (s.chip8_context.display_cells row >>> (64 - col - 1)) &&& 1

/-- `fetch_instruction` of `chips.c`: combine `RAM[PC]` (high byte) and
`RAM[PC + 1]` (low byte) into the 16-bit word stored into a `uint16_t`
(hence the `% 65536`), then advance the 16-bit `PC` by 2.  Reading `RAM`
at an index ≥ 4096 is out of bounds in C, so the result is `none` unless
`PC + 1 < 4096`. -/
def fetch_instruction (s : AppState) : Option (Nat × AppState) :=
  if s.chip8_context.PC + 1 < 4096 then
    some (((s.chip8_context.RAM s.chip8_context.PC <<< 8) |||
             s.chip8_context.RAM (s.chip8_context.PC + 1)) % 65536,
          { s with chip8_context :=
              { s.chip8_context with PC := (s.chip8_context.PC + 2) % 65536 } })
  else
    none

/-- One iteration of the inner `for (short x = 0; x < 8; x++)` loop of the
`DRW` case of `decode_instruction`:
`sprite_bit_value = (sprite_data >> (7 - x)) & 0x1`,
`bit_pos = CHIP8_DISPLAY_WIDTH - 1 - (x_coord + x)` computed in `int`
arithmetic, then `*display_row ^= ((uint64_t)sprite_bit_value << bit_pos)`.
A negative `bit_pos` is an undefined shift in C, modelled as `none`
(`bit_pos ≤ 63 < 64` always holds on the other side). -/
def sprite_row_step (sprite_data x_coord : Nat) (row x : Nat) : Option Nat :=
  let sprite_bit_value := (sprite_data >>> (7 - x)) &&& 1
  let bit_pos : Int := 64 - 1 - ((x_coord : Int) + (x : Int))
  if 0 ≤ bit_pos then
    some (row ^^^ (sprite_bit_value <<< bit_pos.toNat))
  else
    none

/-- The full inner `x` loop of the `DRW` case, over `x = 0, …, 7`,
threading the row value. -/
def sprite_row_xor (sprite_data x_coord row : Nat) : Option Nat :=
  (List.range 8).foldlM (sprite_row_step sprite_data x_coord) row

/-- One iteration of the outer `for (short y = 0; y < n; y++)` loop of the
`DRW` case: read `sprite_data = RAM[I + y]` (an out-of-bounds read,
`I + y ≥ 4096`, is undefined behaviour in C, modelled as `none`), locate
`display_row = &display_cells[y_coord + y]` (an out-of-bounds index,
`y_coord + y ≥ 32`, is likewise undefined behaviour, modelled as `none`),
and run the inner loop on that row. -/
def sprite_blit_step (RAM : Nat → Nat) (I x_coord y_coord : Nat)
    (display : Nat → Nat) (y : Nat) : Option (Nat → Nat) :=
  if I + y < 4096 then
    let sprite_data := RAM (I + y)
    if y_coord + y < 32 then
      match sprite_row_xor sprite_data x_coord (display (y_coord + y)) with
      | some row => some (Function.update display (y_coord + y) row)
      | none => none
    else
      none
  else
    none

/-- The full outer `y` loop of the `DRW` case, over `y = 0, …, n - 1`. -/
def sprite_blit (RAM : Nat → Nat) (I x_coord y_coord n : Nat)
    (display : Nat → Nat) : Option (Nat → Nat) :=
  (List.range n).foldlM (sprite_blit_step RAM I x_coord y_coord) display

/-- `decode_instruction` of `chips.c` (the `message` out-parameter, which
only receives a log string, is dropped).  The nibble fields are computed
exactly as by the `GET_…_NIBBLE` macros; dispatch is the `switch` on the
first nibble with the nested `switch` on the third nibble in the `0x0`
case.  The `DRW` case reads `x_coord`/`y_coord` from the registers
selected by the 2nd/3rd nibbles, zeroes `V[0xF]`, runs the blit loops and
sets `need_redraw`; `none` reports the undefined behaviour cases of the
blit. -/
def decode_instruction (instruction : Nat) (s : AppState) : Option AppState :=
  let first_nibble := (instruction &&& 0xF000) >>> 12
  let second_nibble := (instruction &&& 0xF00) >>> 8
  let third_nibble := (instruction &&& 0xF0) >>> 4
  let fourth_nibble := instruction &&& 0xF
  let third_and_fourth_nibbles := instruction &&& 0xFF
  let second_third_and_fourth_nibbles := instruction &&& 0xFFF
  if first_nibble = 0x0 then
    if third_nibble = 0xE then
      some { s with
        chip8_context := { s.chip8_context with display_cells := fun _ => 0 },
        need_redraw := true }
    else
      some s
  else if first_nibble = 0x1 then
    some { s with chip8_context :=
      { s.chip8_context with PC := second_third_and_fourth_nibbles } }
  else if first_nibble = 0x6 then
    some { s with chip8_context :=
      { s.chip8_context with
        V := Function.update s.chip8_context.V second_nibble
               third_and_fourth_nibbles } }
  else if first_nibble = 0x7 then
    some { s with chip8_context :=
      { s.chip8_context with
        V := Function.update s.chip8_context.V second_nibble
               ((s.chip8_context.V second_nibble + third_and_fourth_nibbles)
                 % 256) } }
  else if first_nibble = 0xA then
    some { s with chip8_context :=
      { s.chip8_context with I := second_third_and_fourth_nibbles } }
  else if first_nibble = 0xD then
    let x_coord := s.chip8_context.V second_nibble
    let y_coord := s.chip8_context.V third_nibble
    let n := fourth_nibble
    let c := { s.chip8_context with V := Function.update s.chip8_context.V 0xF 0 }
    match sprite_blit c.RAM c.I x_coord y_coord n c.display_cells with
    | some d =>
        some { s with
          chip8_context := { c with display_cells := d },
          need_redraw := true }
    | none => none
  else
    some s

/-- The body of the pacing loop of `SDL_AppIterate`: fetch one
instruction, decode/execute it, and if `need_redraw` was set, present the
frame (a host-side effect) and clear the flag. -/
def emulator_step (s : AppState) : Option AppState :=
  match fetch_instruction s with
  | none => none
  | some (cur_instruction, s₁) =>
      match decode_instruction cur_instruction s₁ with
      | none => none
      | some s₂ =>
          some (if s₂.need_redraw then { s₂ with need_redraw := false } else s₂)

/-- The `while ((now - as->last_step) >= STEP_RATE_IN_MILLISECONDS)` loop
of `SDL_AppIterate`, with the `last_step` field threaded as an explicit
argument.  Returns the final machine state, the final `last_step`, and
the number of executed fetch+decode+execute cycles.  Faithful for
`last_step ≤ now` (the monotone-clock regime; `Uint64` wraparound of
`now - as->last_step` is not modelled). -/
def SDL_AppIterate_loop (now last : Nat) (s : AppState) :
    Option (AppState × Nat × Nat) :=
  if 100 ≤ now - last then
    (emulator_step s).bind (fun s₁ =>
      (SDL_AppIterate_loop now (last + 100) s₁).map
        (fun r => (r.1, r.2.1, r.2.2 + 1)))
  else
    some (s, last, 0)
  termination_by now - last
  decreasing_by omega

/-! ### Concrete machine states used to exercise the operations -/

/-- The freshly initialised machine: everything zeroed and the program
counter at `ROM_GAME_ADDRESS_START = 0x200`, as set up by `SDL_AppInit`
(`SDL_calloc` plus `PC = 0x200`) before any ROM byte is loaded. -/
def zeroState : AppState :=
  { chip8_context :=
      { RAM := fun _ => 0, PC := 0x200, I := 0, delay_timer := 0,
        sound_timer := 0, display_cells := fun _ => 0, V := fun _ => 0 },
    need_redraw := false }

/-- A machine about to draw at the right display edge: `V0 = 60`,
`I = 0x300`, and the single sprite byte `RAM[0x300] = 0xFF`. -/
def rightEdgeState : AppState :=
  { chip8_context :=
      { RAM := fun a => if a = 0x300 then 0xFF else 0, PC := 0x200,
        I := 0x300, delay_timer := 0, sound_timer := 0,
        display_cells := fun _ => 0, V := fun i => if i = 0 then 60 else 0 },
    need_redraw := false }

/-- A machine whose `DRW` coordinates are both taken from `VF = 8`, with
every `RAM` byte `0xFF` and an empty display. -/
def vfCoordState : AppState :=
  { chip8_context :=
      { RAM := fun _ => 0xFF, PC := 0x200, I := 0, delay_timer := 0,
        sound_timer := 0, display_cells := fun _ => 0,
        V := fun i => if i = 15 then 8 else 0 },
    need_redraw := false }

/-- A machine with the instruction bytes `0x12 0x34` at the program
counter. -/
def fetchDemoState : AppState :=
  { chip8_context :=
      { RAM := fun a => if a = 0x200 then 0x12 else if a = 0x201 then 0x34 else 0,
        PC := 0x200, I := 0, delay_timer := 0, sound_timer := 0,
        display_cells := fun _ => 0, V := fun _ => 0 },
    need_redraw := false }

/-- `zeroState` after one emulator step (opcode `0x0000`, unrecognized:
only the program counter moved). -/
def zeroStateStep1 : AppState :=
  { chip8_context :=
      { RAM := fun _ => 0, PC := 0x202, I := 0, delay_timer := 0,
        sound_timer := 0, display_cells := fun _ => 0, V := fun _ => 0 },
    need_redraw := false }

/-- `zeroState` after two emulator steps. -/
def zeroStateStep2 : AppState :=
  { chip8_context :=
      { RAM := fun _ => 0, PC := 0x204, I := 0, delay_timer := 0,
        sound_timer := 0, display_cells := fun _ => 0, V := fun _ => 0 },
    need_redraw := false }

/-- A machine with `V0 = 0xFF`, about to run `ADD V0, 0x02`. -/
def addDemoState : AppState :=
  { chip8_context :=
      { RAM := fun _ => 0, PC := 0x200, I := 0, delay_timer := 0,
        sound_timer := 0, display_cells := fun _ => 0,
        V := fun i => if i = 0 then 0xFF else 0 },
    need_redraw := false }

/-- A machine with a fully lit display row pattern (`7` in every packed
row), used to exercise `CLS`. -/
def litDisplayState : AppState :=
  { chip8_context :=
      { RAM := fun _ => 0, PC := 0x200, I := 0, delay_timer := 0,
        sound_timer := 0, display_cells := fun _ => 7, V := fun _ => 0 },
    need_redraw := false }

/-! ### Helper lemmas about the sprite blit -/

/-- A single inner-loop iteration commutes with XOR-ing the row by a
constant: if it succeeds it only XORs a row-independent bit into the
row. -/
theorem sprite_row_step_xor {sprite_data x_coord row x r : Nat} (a : Nat)
    (h : sprite_row_step sprite_data x_coord row x = some r) :
    sprite_row_step sprite_data x_coord (a ^^^ row) x = some (a ^^^ r) := by
  unfold sprite_row_step at h ⊢
  by_cases hc : (0 : Int) ≤ 64 - 1 - ((x_coord : Int) + (x : Int))
  · simp only [if_pos hc, Option.some.injEq] at h ⊢
    subst h
    rw [Nat.xor_assoc]
  · simp only [if_neg hc] at h
    exact absurd h (by simp)

/-- A single inner-loop iteration succeeds whenever the destination bit
position `63 - (x_coord + x)` is non-negative. -/
theorem sprite_row_step_isSome {x_coord x : Nat} (sprite_data row : Nat)
    (hx : x_coord + x ≤ 63) :
    ∃ r, sprite_row_step sprite_data x_coord row x = some r := by
  refine ⟨row ^^^ (((sprite_data >>> (7 - x)) &&& 1) <<<
    ((64 - 1 - ((x_coord : Int) + (x : Int))).toNat)), ?_⟩
  unfold sprite_row_step
  rw [if_pos (by omega)]

/-- The inner loop commutes with XOR-ing the row by a constant. -/
theorem foldlM_sprite_row_step_xor (sprite_data x_coord : Nat) (l : List Nat) :
    ∀ row a r, l.foldlM (sprite_row_step sprite_data x_coord) row = some r →
      l.foldlM (sprite_row_step sprite_data x_coord) (a ^^^ row) = some (a ^^^ r) := by
  induction l with
  | nil =>
      intro row a r h
      simp only [List.foldlM_nil] at h ⊢
      cases h
      rfl
  | cons x xs ih =>
      intro row a r h
      rw [List.foldlM_cons] at h ⊢
      cases hs : sprite_row_step sprite_data x_coord row x with
      | none => rw [hs] at h; exact absurd h (by simp)
      | some row₁ =>
          rw [hs] at h
          rw [sprite_row_step_xor a hs]
          simp only [Option.bind_eq_bind, Option.some_bind] at h ⊢
          exact ih row₁ a r h

/-- The inner loop succeeds whenever every visited column stays in
range. -/
theorem foldlM_sprite_row_step_isSome (sprite_data x_coord : Nat) (l : List Nat)
    (hl : ∀ x ∈ l, x_coord + x ≤ 63) :
    ∀ row, ∃ r, l.foldlM (sprite_row_step sprite_data x_coord) row = some r := by
  induction l with
  | nil => intro row; exact ⟨row, rfl⟩
  | cons x xs ih =>
      intro row
      obtain ⟨r₁, hr₁⟩ :=
        sprite_row_step_isSome sprite_data row (hl x (by simp))
      obtain ⟨r, hr⟩ := ih (fun x hx => hl x (by simp [hx])) r₁
      refine ⟨r, ?_⟩
      rw [List.foldlM_cons, hr₁]
      simpa using hr

/-- A single outer-loop iteration commutes with XOR-ing the display by a
pointwise constant: the sprite row XOR-ed into a display row does not
depend on the display contents. -/
theorem sprite_blit_step_xor {RAM : Nat → Nat} {I x_coord y_coord : Nat}
    {d d' : Nat → Nat} {y : Nat} (a : Nat → Nat)
    (h : sprite_blit_step RAM I x_coord y_coord d y = some d') :
    sprite_blit_step RAM I x_coord y_coord (fun i => a i ^^^ d i) y =
      some (fun i => a i ^^^ d' i) := by
  unfold sprite_blit_step at h ⊢
  by_cases hb : I + y < 4096
  case neg =>
    rw [if_neg hb] at h
    exact absurd h (by simp)
  simp only [if_pos hb] at h ⊢
  by_cases hr : y_coord + y < 32
  · simp only [if_pos hr] at h ⊢
    cases hrow : sprite_row_xor (RAM (I + y)) x_coord (d (y_coord + y)) with
    | none => rw [hrow] at h; exact absurd h (by simp)
    | some row =>
        rw [hrow] at h
        have hrow₂ :
            sprite_row_xor (RAM (I + y)) x_coord
              (a (y_coord + y) ^^^ d (y_coord + y)) =
              some (a (y_coord + y) ^^^ row) :=
          foldlM_sprite_row_step_xor (RAM (I + y)) x_coord (List.range 8)
            (d (y_coord + y)) (a (y_coord + y)) row hrow
        rw [hrow₂]
        simp only [Option.some.injEq] at h ⊢
        subst h
        funext i
        by_cases hi : i = y_coord + y <;> simp [Function.update, hi]
  · rw [if_neg hr] at h
    exact absurd h (by simp)

/-- A single outer-loop iteration succeeds whenever its sprite byte lies
in memory, its display row is in range and the sprite stays within the
right edge. -/
theorem sprite_blit_step_isSome (RAM : Nat → Nat) (I x_coord y_coord : Nat)
    (d : Nat → Nat) (y : Nat) (hm : I + y < 4096) (hr : y_coord + y < 32)
    (hx : x_coord + 7 ≤ 63) :
    ∃ d', sprite_blit_step RAM I x_coord y_coord d y = some d' := by
  obtain ⟨row, hrow⟩ :=
    foldlM_sprite_row_step_isSome (RAM (I + y)) x_coord (List.range 8)
      (fun x hx8 => by
        have : x < 8 := List.mem_range.mp hx8
        omega)
      (d (y_coord + y))
  refine ⟨Function.update d (y_coord + y) row, ?_⟩
  unfold sprite_blit_step
  rw [if_pos hm, if_pos hr]
  rw [show sprite_row_xor (RAM (I + y)) x_coord (d (y_coord + y)) = some row
        from hrow]

/-- The outer loop commutes with XOR-ing the display by a pointwise
constant. -/
theorem foldlM_sprite_blit_step_xor (RAM : Nat → Nat) (I x_coord y_coord : Nat)
    (l : List Nat) :
    ∀ (d a d' : Nat → Nat),
      l.foldlM (sprite_blit_step RAM I x_coord y_coord) d = some d' →
      l.foldlM (sprite_blit_step RAM I x_coord y_coord) (fun i => a i ^^^ d i) =
        some (fun i => a i ^^^ d' i) := by
  induction l with
  | nil =>
      intro d a d' h
      simp only [List.foldlM_nil] at h ⊢
      cases h
      rfl
  | cons y ys ih =>
      intro d a d' h
      rw [List.foldlM_cons] at h ⊢
      cases hs : sprite_blit_step RAM I x_coord y_coord d y with
      | none => rw [hs] at h; exact absurd h (by simp)
      | some d₁ =>
          rw [hs] at h
          rw [sprite_blit_step_xor a hs]
          simp only [Option.bind_eq_bind, Option.some_bind] at h ⊢
          exact ih d₁ a d' h

/-- The outer loop succeeds whenever every visited sprite byte lies in
memory, every visited row is in range and the sprite stays within the
right edge. -/
theorem foldlM_sprite_blit_step_isSome (RAM : Nat → Nat)
    (I x_coord y_coord : Nat) (l : List Nat)
    (hm : ∀ y ∈ l, I + y < 4096)
    (hl : ∀ y ∈ l, y_coord + y < 32) (hx : x_coord + 7 ≤ 63) :
    ∀ d, ∃ d', l.foldlM (sprite_blit_step RAM I x_coord y_coord) d = some d' := by
  induction l with
  | nil => intro d; exact ⟨d, rfl⟩
  | cons y ys ih =>
      intro d
      obtain ⟨d₁, hd₁⟩ :=
        sprite_blit_step_isSome RAM I x_coord y_coord d y (hm y (by simp))
          (hl y (by simp)) hx
      obtain ⟨d', hd'⟩ :=
        ih (fun y hy => hm y (by simp [hy])) (fun y hy => hl y (by simp [hy])) d₁
      refine ⟨d', ?_⟩
      rw [List.foldlM_cons, hd₁]
      simpa using hd'

/-! ### Helper lemmas about `decode_instruction` and the pacing loop -/

/-- Unfolding `decode_instruction` on a `DRW` word (first nibble `0xD`). -/
theorem decode_instruction_drw (instruction : Nat) (s : AppState)
    (hD : (instruction &&& 0xF000) >>> 12 = 0xD) :
    decode_instruction instruction s =
      match sprite_blit s.chip8_context.RAM s.chip8_context.I
          (s.chip8_context.V ((instruction &&& 0xF00) >>> 8))
          (s.chip8_context.V ((instruction &&& 0xF0) >>> 4))
          (instruction &&& 0xF) s.chip8_context.display_cells with
      | some d =>
          some { s with
            chip8_context :=
              { s.chip8_context with
                V := Function.update s.chip8_context.V 0xF 0,
                display_cells := d },
            need_redraw := true }
      | none => none := by
  simp only [decode_instruction, hD]
  norm_num

/-- Unfolding `decode_instruction` on a word that matches no category:
the `default` arms of both `switch` statements leave the state as is. -/
theorem decode_instruction_unrecognized (instruction : Nat) (s : AppState)
    (h1 : (instruction &&& 0xF000) >>> 12 ≠ 0x1)
    (h6 : (instruction &&& 0xF000) >>> 12 ≠ 0x6)
    (h7 : (instruction &&& 0xF000) >>> 12 ≠ 0x7)
    (hA : (instruction &&& 0xF000) >>> 12 ≠ 0xA)
    (hD : (instruction &&& 0xF000) >>> 12 ≠ 0xD)
    (hE : (instruction &&& 0xF000) >>> 12 = 0x0 →
      (instruction &&& 0xF0) >>> 4 ≠ 0xE) :
    decode_instruction instruction s = some s := by
  by_cases h0 : (instruction &&& 0xF000) >>> 12 = 0x0
  · simp [decode_instruction, h0, hE h0]
  · simp [decode_instruction, h0, h1, h6, h7, hA, hD]

/-- The count/advance invariant of the pacing loop: whenever the loop
completes, it has executed `⌊(now - last) / 100⌋` emulator steps and
advanced `last_step` by 100 ms per executed step. -/
theorem SDL_AppIterate_loop_count (now : Nat) :
    ∀ k last s s' l c, now - last = k →
      SDL_AppIterate_loop now last s = some (s', l, c) →
      c = (now - last) / 100 ∧ l = last + 100 * c := by
  intro k
  induction k using Nat.strong_induction_on with
  | _ k ih =>
      intro last s s' l c hk h
      rw [SDL_AppIterate_loop] at h
      by_cases hg : 100 ≤ now - last
      · rw [if_pos hg] at h
        cases hstep : emulator_step s with
        | none => rw [hstep] at h; exact absurd h (by simp)
        | some s₁ =>
            rw [hstep] at h
            simp only [Option.bind_eq_bind, Option.some_bind] at h
            cases hrec : SDL_AppIterate_loop now (last + 100) s₁ with
            | none => rw [hrec] at h; exact absurd h (by simp)
            | some r =>
                obtain ⟨s₂, l₂, c₂⟩ := r
                rw [hrec] at h
                simp only [Option.map_some', Option.some.injEq, Prod.mk.injEq]
                  at h
                obtain ⟨hs, hl, hc⟩ := h
                obtain ⟨hc₂, hl₂⟩ :=
                  ih (k - 100) (by omega) (last + 100) s₁ s₂ l₂ c₂
                    (by omega) hrec
                subst hs hl hc
                constructor
                · omega
                · omega
      · rw [if_neg hg] at h
        simp only [Option.some.injEq, Prod.mk.injEq] at h
        obtain ⟨hs, hl, hc⟩ := h
        subst hs hl hc
        constructor
        · omega
        · omega

/-- `sprite_blit` commutes with XOR-ing the display by a pointwise
constant: the pattern a draw XORs onto the display does not depend on the
prior display contents. -/
theorem sprite_blit_xor (RAM : Nat → Nat) (I x_coord y_coord n : Nat)
    (d a d' : Nat → Nat)
    (h : sprite_blit RAM I x_coord y_coord n d = some d') :
    sprite_blit RAM I x_coord y_coord n (fun i => a i ^^^ d i) =
      some (fun i => a i ^^^ d' i) :=
  foldlM_sprite_blit_step_xor RAM I x_coord y_coord (List.range n) d a d' h

/-- `sprite_blit` succeeds whenever the sprite bytes lie in memory and
the sprite stays within the display: no `RAM` index reaches 4096, no draw
row reaches index 32 and no column passes 63. -/
theorem sprite_blit_isSome (RAM : Nat → Nat) (I x_coord y_coord n : Nat)
    (hm : ∀ y < n, I + y < 4096)
    (hl : ∀ y < n, y_coord + y < 32) (hx : x_coord + 7 ≤ 63)
    (d : Nat → Nat) :
    ∃ d', sprite_blit RAM I x_coord y_coord n d = some d' :=
  foldlM_sprite_blit_step_isSome RAM I x_coord y_coord (List.range n)
    (fun y hy => hm y (List.mem_range.mp hy))
    (fun y hy => hl y (List.mem_range.mp hy)) hx d

/-! ### The claims -/

/-- C1: the claim expects `DRW` with `x0 = 60` and sprite byte `0xFF` to
wrap the four overflowing pixels to columns 0–3 because both coordinates
are reduced modulo the display dimensions.  The code performs no modulo
reduction: at `x = 4` it computes `bit_pos = 63 - (60 + 4) = -1` and
shifts a `uint64_t` by it, which is undefined behaviour, so the draw has
no defined result at the claim's own scenario (`V0 = 60`, `I = 0x300`,
`RAM[0x300] = 0xFF`, opcode `0xD011`). -/
theorem drw_right_edge_undefined :
    decode_instruction 0xD011 rightEdgeState = none := rfl

/-- C3: with `PC + 1` in bounds, fetching returns the word formed
big-endian from `RAM[PC]` (high byte) and `RAM[PC + 1]` (low byte),
advances `PC` by exactly 2, and changes nothing else in the machine
state. -/
theorem fetch_big_endian_advance (s : AppState)
    (hpc : s.chip8_context.PC + 1 < 4096)
    (hhi : s.chip8_context.RAM s.chip8_context.PC < 256)
    (hlo : s.chip8_context.RAM (s.chip8_context.PC + 1) < 256) :
    fetch_instruction s =
      some (256 * s.chip8_context.RAM s.chip8_context.PC +
              s.chip8_context.RAM (s.chip8_context.PC + 1),
            { s with chip8_context :=
                { s.chip8_context with PC := s.chip8_context.PC + 2 } }) := by
  unfold fetch_instruction
  rw [if_pos hpc]
  have hw : ((s.chip8_context.RAM s.chip8_context.PC <<< 8) |||
        s.chip8_context.RAM (s.chip8_context.PC + 1)) % 65536 =
      256 * s.chip8_context.RAM s.chip8_context.PC +
        s.chip8_context.RAM (s.chip8_context.PC + 1) := by
    rw [Nat.shiftLeft_eq]
    have h8 : (2 : Nat) ^ 8 = 256 := by norm_num
    rw [show s.chip8_context.RAM s.chip8_context.PC * 2 ^ 8 =
          2 ^ 8 * s.chip8_context.RAM s.chip8_context.PC from Nat.mul_comm _ _]
    rw [← Nat.mul_add_lt_is_or (by omega) (s.chip8_context.RAM s.chip8_context.PC)]
    rw [h8]
    exact Nat.mod_eq_of_lt (by omega)
  rw [hw, Nat.mod_eq_of_lt (show s.chip8_context.PC + 2 < 65536 by omega)]

/-- C3 witness: bytes `0x12 0x34` at the program counter fetch as
`0x1234` with the program counter advanced by 2. -/
theorem fetch_big_endian_advance_witness :
    fetch_instruction fetchDemoState =
      some (0x1234, { fetchDemoState with chip8_context :=
          { fetchDemoState.chip8_context with
            PC := fetchDemoState.chip8_context.PC + 2 } }) := by
  have h := fetch_big_endian_advance fetchDemoState (by decide) (by decide)
    (by decide)
  rw [h]
  norm_num [fetchDemoState]

/-- C5 counterexample: the claim asserts that `ADD Vx, byte` always
leaves `VF` unchanged, but for opcode `0x7F02` the target register is
`VF` itself: starting from `VF = 0` it ends at `2`. -/
theorem add_vx_byte_vf_counterexample :
    (decode_instruction 0x7F02 zeroState).map
        (fun t => t.chip8_context.V 0xF) = some 2 ∧
      zeroState.chip8_context.V 0xF = 0 := by
  constructor
  · rfl
  · rfl

/-- C5 (amended): `ADD Vx, byte` (first nibble `0x7`) sets the register
selected by the 2nd nibble to `(old + NN) % 256`, leaves every other
register unchanged, and in particular leaves `VF` unchanged whenever the
2nd nibble is not `0xF` (no carry flag is ever produced). -/
theorem add_vx_byte_wraps (s : AppState) (w : Nat)
    (h7 : (w &&& 0xF000) >>> 12 = 0x7) :
    ∃ s', decode_instruction w s = some s' ∧
      s'.chip8_context.V ((w &&& 0xF00) >>> 8) =
        (s.chip8_context.V ((w &&& 0xF00) >>> 8) + (w &&& 0xFF)) % 256 ∧
      (∀ i, i ≠ (w &&& 0xF00) >>> 8 →
        s'.chip8_context.V i = s.chip8_context.V i) ∧
      ((w &&& 0xF00) >>> 8 ≠ 0xF →
        s'.chip8_context.V 0xF = s.chip8_context.V 0xF) := by
  refine ⟨{ s with chip8_context :=
      { s.chip8_context with
        V := Function.update s.chip8_context.V ((w &&& 0xF00) >>> 8)
               ((s.chip8_context.V ((w &&& 0xF00) >>> 8) + (w &&& 0xFF))
                 % 256) } }, ?_, ?_, ?_, ?_⟩
  · simp only [decode_instruction, h7]
    norm_num
  · simp [Function.update_same]
  · intro i hi
    simp [Function.update_noteq hi]
  · intro hF
    simp [Function.update_noteq (Ne.symm hF)]

/-- C5 witness: with `V0 = 0xFF`, opcode `0x7002` yields `V0 = 0x01` and
leaves `VF` at 0. -/
theorem add_vx_byte_wraps_witness :
    (decode_instruction 0x7002 addDemoState).map
        (fun t => t.chip8_context.V 0) = some 1 ∧
      (decode_instruction 0x7002 addDemoState).map
        (fun t => t.chip8_context.V 0xF) = some 0 := by
  obtain ⟨s', h1, h2, h3, h4⟩ := add_vx_byte_wraps addDemoState 0x7002 (by decide)
  rw [h1]
  constructor
  · simp only [Option.map_some', Option.some.injEq]
    simp [addDemoState] at h2
    exact h2
  · simp only [Option.map_some', Option.some.injEq]
    have h5 := h4 (by decide)
    simp [addDemoState] at h5
    exact h5

/-- C6: executing opcode `0x00E0` (`CLS`) zeroes every bit of every
display row, sets `need_redraw`, and leaves all registers unchanged. -/
theorem cls_clears_display_preserves_registers (s : AppState) :
    ∃ s', decode_instruction 0x00E0 s = some s' ∧
      (∀ row col, get_display_cell s' row col = 0) ∧
      s'.need_redraw = true ∧
      (∀ i, s'.chip8_context.V i = s.chip8_context.V i) := by
  refine ⟨{ s with
      chip8_context := { s.chip8_context with display_cells := fun _ => 0 },
      need_redraw := true }, rfl, ?_, rfl, fun i => rfl⟩
  intro row col
  simp [get_display_cell]

/-- C8: whenever a `DRW` instruction (first nibble `0xD`) completes,
register `VF` ends at 0: it is zeroed before the blit loop and never set
inside it. -/
theorem drw_leaves_vf_zero (s s' : AppState) (w : Nat)
    (hD : (w &&& 0xF000) >>> 12 = 0xD)
    (h : decode_instruction w s = some s') :
    s'.chip8_context.V 0xF = 0 := by
  rw [decode_instruction_drw w s hD] at h
  cases hb : sprite_blit s.chip8_context.RAM s.chip8_context.I
      (s.chip8_context.V ((w &&& 0xF00) >>> 8))
      (s.chip8_context.V ((w &&& 0xF0) >>> 4)) (w &&& 0xF)
      s.chip8_context.display_cells with
  | none => rw [hb] at h; exact absurd h (by simp)
  | some d =>
      rw [hb] at h
      simp only [Option.some.injEq] at h
      subst h
      simp [Function.update_same]

/-- C8 witness: a completing draw (opcode `0xD011` on the zero state)
leaves `VF = 0`. -/
theorem drw_leaves_vf_zero_witness :
    (decode_instruction 0xD011 zeroState).map
      (fun t => t.chip8_context.V 0xF) = some 0 := by
  have hs : (decode_instruction 0xD011 zeroState).isSome = true := rfl
  obtain ⟨t, ht⟩ := Option.isSome_iff_exists.mp hs
  have hvf := drw_leaves_vf_zero zeroState t 0xD011 (by decide) ht
  rw [ht]
  simp [hvf]

/-- C9: every word whose 1st nibble is `0x0` and whose 3rd nibble is
`0xE` — `0x00EE` (the canonical `RET`) included — clears the entire
display and sets `need_redraw`, because the `0x0` category dispatches on
the 3rd nibble alone. -/
theorem category0_clears_display (s : AppState) (w : Nat)
    (h0 : (w &&& 0xF000) >>> 12 = 0x0)
    (hE : (w &&& 0xF0) >>> 4 = 0xE) :
    decode_instruction w s =
      some { s with
        chip8_context := { s.chip8_context with display_cells := fun _ => 0 },
        need_redraw := true } := by
  simp [decode_instruction, h0, hE]

/-- C9 witness: `0x00EE` clears a lit display. -/
theorem category0_clears_display_witness :
    decode_instruction 0x00EE litDisplayState =
      some { litDisplayState with
        chip8_context :=
          { litDisplayState.chip8_context with display_cells := fun _ => 0 },
        need_redraw := true } :=
  category0_clears_display litDisplayState 0x00EE (by decide) (by decide)

/-- C10: no instruction writes to memory: whenever the decoder completes,
all 4096 bytes of `RAM` are unchanged. -/
theorem decode_preserves_memory (w : Nat) (s s' : AppState)
    (h : decode_instruction w s = some s') :
    s'.chip8_context.RAM = s.chip8_context.RAM := by
  by_cases hD : (w &&& 0xF000) >>> 12 = 0xD
  · rw [decode_instruction_drw w s hD] at h
    cases hb : sprite_blit s.chip8_context.RAM s.chip8_context.I
        (s.chip8_context.V ((w &&& 0xF00) >>> 8))
        (s.chip8_context.V ((w &&& 0xF0) >>> 4)) (w &&& 0xF)
        s.chip8_context.display_cells with
    | none => rw [hb] at h; exact absurd h (by simp)
    | some d =>
        rw [hb] at h
        simp only [Option.some.injEq] at h
        subst h
        rfl
  · simp only [decode_instruction] at h
    split_ifs at h <;>
      (simp only [Option.some.injEq] at h; subst h; rfl)

/-- C10 witness: `CLS` leaves memory untouched. -/
theorem decode_preserves_memory_witness :
    (decode_instruction 0x00E0 zeroState).map
      (fun t => t.chip8_context.RAM) = some zeroState.chip8_context.RAM := by
  have hs : (decode_instruction 0x00E0 zeroState).isSome = true := rfl
  obtain ⟨t, ht⟩ := Option.isSome_iff_exists.mp hs
  have hram := decode_preserves_memory 0x00E0 zeroState t ht
  rw [ht]
  simp [hram]

/-- C7: executing a fetched word that matches no category (1st nibble
outside `{0x1, 0x6, 0x7, 0xA, 0xD}` and not the `0x0`-with-3rd-nibble-`0xE`
case) leaves registers, memory, the index register, the display and the
`need_redraw` flag unchanged, and leaves the program counter at its
post-fetch value `PC + 2`. -/
theorem unknown_opcode_no_effect (s : AppState) (w : Nat)
    (hpc : s.chip8_context.PC + 1 < 4096)
    (hw : (fetch_instruction s).map Prod.fst = some w)
    (h1 : (w &&& 0xF000) >>> 12 ≠ 0x1)
    (h6 : (w &&& 0xF000) >>> 12 ≠ 0x6)
    (h7 : (w &&& 0xF000) >>> 12 ≠ 0x7)
    (hA : (w &&& 0xF000) >>> 12 ≠ 0xA)
    (hD : (w &&& 0xF000) >>> 12 ≠ 0xD)
    (hE : (w &&& 0xF000) >>> 12 = 0x0 →
      (w &&& 0xF0) >>> 4 ≠ 0xE) :
    (fetch_instruction s).bind (fun p => decode_instruction p.1 p.2) =
      some { s with chip8_context :=
          { s.chip8_context with PC := s.chip8_context.PC + 2 } } := by
  unfold fetch_instruction at hw ⊢
  rw [if_pos hpc] at hw ⊢
  simp only [Option.map_some', Option.some.injEq] at hw
  simp only [Option.bind_eq_bind, Option.some_bind]
  rw [hw]
  rw [decode_instruction_unrecognized w _ h1 h6 h7 hA hD hE]
  rw [Nat.mod_eq_of_lt (show s.chip8_context.PC + 2 < 65536 by omega)]

/-- C7 witness: the all-zero word `0x0000` (3rd nibble `0x0 ≠ 0xE`) only
advances the program counter. -/
theorem unknown_opcode_no_effect_witness :
    (fetch_instruction zeroState).bind (fun p => decode_instruction p.1 p.2) =
      some { zeroState with chip8_context :=
          { zeroState.chip8_context with
            PC := zeroState.chip8_context.PC + 2 } } :=
  unknown_opcode_no_effect zeroState 0 (by decide) (by decide) (by decide)
    (by decide) (by decide) (by decide) (by decide) (by decide)

/-- C4: whenever the pacing loop completes, the number of executed
fetch+decode+execute cycles is `⌊(now - last_step) / 100⌋` and
`last_step` advances by 100 ms per executed cycle; in particular an
elapsed time of 250 ms runs exactly two cycles and advances `last_step`
by exactly 200 ms, retaining the residual 50 ms of time debt. -/
theorem SDL_AppIterate_loop_pacing (now last : Nat) (s s' : AppState)
    (l c : Nat)
    (h : SDL_AppIterate_loop now last s = some (s', l, c)) :
    c = (now - last) / 100 ∧ l = last + 100 * c ∧
      (now - last = 250 → c = 2 ∧ l = last + 200) := by
  obtain ⟨hc, hl⟩ :=
    SDL_AppIterate_loop_count now (now - last) last s s' l c rfl h
  refine ⟨hc, hl, fun h250 => ?_⟩
  constructor <;> omega

/-- C4 witness: on the zero machine with `now - last_step = 250`, the
loop performs exactly two steps and advances `last_step` to 200. -/
theorem SDL_AppIterate_loop_pacing_witness :
    2 = (250 - 0) / 100 ∧ 200 = 0 + 100 * 2 ∧
      (250 - 0 = 250 → 2 = 2 ∧ 200 = 0 + 200) := by
  have h0 : emulator_step zeroState = some zeroStateStep1 := rfl
  have h1 : emulator_step zeroStateStep1 = some zeroStateStep2 := rfl
  have h : SDL_AppIterate_loop 250 0 zeroState = some (zeroStateStep2, 200, 2) := by
    rw [SDL_AppIterate_loop, if_pos (by norm_num), h0]
    simp only [Option.bind_eq_bind, Option.some_bind]
    rw [SDL_AppIterate_loop, if_pos (by norm_num), h1]
    simp only [Option.bind_eq_bind, Option.some_bind]
    rw [SDL_AppIterate_loop, if_neg (by norm_num)]
    rfl
  exact SDL_AppIterate_loop_pacing 250 0 zeroState zeroStateStep2 200 2 h

/-- C2 counterexample: executing the same in-bounds `DRW` twice does not
always restore the display.  With `V15 = 8` and opcode `0xDFF1` (both
coordinates taken from `VF`), the first draw blits at `(8, 8)` and zeroes
`VF`, so the second draw blits at `(0, 0)`: afterwards row 0 differs from
its pre-draw value even though the claim's bounds `x0 + 7 ≤ 63` and
`y0 + n - 1 ≤ 31` hold. -/
theorem drw_double_xor_counterexample :
    vfCoordState.chip8_context.V ((0xDFF1 &&& 0xF00) >>> 8) + 7 ≤ 63 ∧
      vfCoordState.chip8_context.V ((0xDFF1 &&& 0xF0) >>> 4) +
        (0xDFF1 &&& 0xF) - 1 ≤ 31 ∧
      ((decode_instruction 0xDFF1 vfCoordState).bind
          (decode_instruction 0xDFF1)).map
        (fun t => t.chip8_context.display_cells 0) ≠
        some (vfCoordState.chip8_context.display_cells 0) := by
  refine ⟨by decide, by decide, ?_⟩
  decide

/-- C2 (amended): drawing the same in-bounds `DRW` instruction twice in
succession restores every display bit to its pre-draw value (XOR
compositing is self-inverse), provided neither coordinate register is
`VF` (the draw zeroes `VF` before blitting, so a `VF`-based coordinate
can change between the two draws) and the `n` sprite bytes lie within
memory, `I + n ≤ 4096` (the unguarded C read `RAM[I + y]` is out of
bounds otherwise). -/
theorem drw_double_xor_restores_display (s : AppState) (w : Nat)
    (hD : (w &&& 0xF000) >>> 12 = 0xD)
    (h2 : (w &&& 0xF00) >>> 8 ≠ 0xF)
    (h3 : (w &&& 0xF0) >>> 4 ≠ 0xF)
    (hx : s.chip8_context.V ((w &&& 0xF00) >>> 8) + 7 ≤ 63)
    (hy : s.chip8_context.V ((w &&& 0xF0) >>> 4) + (w &&& 0xF) - 1 ≤ 31)
    (hI : s.chip8_context.I + (w &&& 0xF) ≤ 4096) :
    ∃ s₁ s₂, decode_instruction w s = some s₁ ∧
      decode_instruction w s₁ = some s₂ ∧
      s₂.chip8_context.display_cells = s.chip8_context.display_cells := by
  have hmem : ∀ y, y < w &&& 0xF → s.chip8_context.I + y < 4096 := by
    intro y hy'
    omega
  have hrows : ∀ y, y < w &&& 0xF →
      s.chip8_context.V ((w &&& 0xF0) >>> 4) + y < 32 := by
    intro y hy'
    omega
  obtain ⟨M, hM⟩ := sprite_blit_isSome s.chip8_context.RAM s.chip8_context.I
    (s.chip8_context.V ((w &&& 0xF00) >>> 8))
    (s.chip8_context.V ((w &&& 0xF0) >>> 4)) (w &&& 0xF) hmem hrows (by omega)
    (fun _ => 0)
  have hd1 : sprite_blit s.chip8_context.RAM s.chip8_context.I
      (s.chip8_context.V ((w &&& 0xF00) >>> 8))
      (s.chip8_context.V ((w &&& 0xF0) >>> 4)) (w &&& 0xF)
      s.chip8_context.display_cells =
      some (fun i => s.chip8_context.display_cells i ^^^ M i) := by
    have h := sprite_blit_xor s.chip8_context.RAM s.chip8_context.I
      (s.chip8_context.V ((w &&& 0xF00) >>> 8))
      (s.chip8_context.V ((w &&& 0xF0) >>> 4)) (w &&& 0xF)
      (fun _ => 0) s.chip8_context.display_cells M hM
    simpa using h
  have hd2 : sprite_blit s.chip8_context.RAM s.chip8_context.I
      (s.chip8_context.V ((w &&& 0xF00) >>> 8))
      (s.chip8_context.V ((w &&& 0xF0) >>> 4)) (w &&& 0xF)
      (fun i => s.chip8_context.display_cells i ^^^ M i) =
      some s.chip8_context.display_cells := by
    have h := sprite_blit_xor s.chip8_context.RAM s.chip8_context.I
      (s.chip8_context.V ((w &&& 0xF00) >>> 8))
      (s.chip8_context.V ((w &&& 0xF0) >>> 4)) (w &&& 0xF)
      (fun _ => 0) (fun i => s.chip8_context.display_cells i ^^^ M i) M hM
    simpa [Nat.xor_assoc] using h
  refine ⟨{ s with
      need_redraw := true,
      chip8_context :=
        { s.chip8_context with
          V := Function.update s.chip8_context.V 0xF 0,
          display_cells := (fun i => s.chip8_context.display_cells i ^^^ M i) } },
    { s with
      need_redraw := true,
      chip8_context :=
        { s.chip8_context with
          V := Function.update (Function.update s.chip8_context.V 0xF 0) 0xF 0,
          display_cells := s.chip8_context.display_cells } },
    ?_, ?_, rfl⟩
  · rw [decode_instruction_drw w s hD, hd1]
  · rw [decode_instruction_drw _ _ hD]
    simp only [Function.update_noteq h2, Function.update_noteq h3]
    rw [hd2]

/-- C2 witness: opcode `0xD011` (coordinates from `V0`, `V1`, neither is
`VF`) drawn twice on the zero machine restores the display function
bit-for-bit. -/
theorem drw_double_xor_restores_display_witness :
    ((decode_instruction 0xD011 zeroState).bind
        (decode_instruction 0xD011)).map
      (fun t => t.chip8_context.display_cells) =
      some zeroState.chip8_context.display_cells := by
  obtain ⟨s₁, s₂, h1, h2, h3⟩ := drw_double_xor_restores_display zeroState
    0xD011 (by decide) (by decide) (by decide) (by decide) (by decide)
    (by decide)
  rw [h1]
  simp [h2, h3]
